import Mathlib

/-!
Verification of the pseudonymization engine of the A5 PII anonymizer
(file src/fileProcessor.js).  The four core functions are embedded
shallowly: getPseudonym, aggressiveMergeTokens, buildFuzzyRegex and the
replacement loop of anonymizeText.  JavaScript objects used as maps are
modelled as association lists (insertion ordered, new keys appended), and
the compiled regular expression produced by buildFuzzyRegex is modelled by
its list of literal characters, with an executable matcher implementing
exactly the semantics of the pattern shape the code builds:
each literal, case-insensitively, followed by a greedy, backtracking run
of zero or more characters outside a-z, A-Z, 0-9.
-/

namespace A5

/-- One token classification as delivered by the model pipeline: the raw
label (for example B-PER, I-PER, O) and the token text.  The score field
is never consulted by the merge code and is omitted. -/
structure Pred where
  entity : String
  word : String
deriving DecidableEq

/-- A merged entity span: entity type with prefix stripped, and the
concatenated normalized token texts. -/
structure Span where
  type : String
  text : String
deriving DecidableEq

/-- ASCII whitespace, the forms of the JS class backslash-s that occur in
the texts handled here (space, tab, newline, carriage return, vertical
tab, form feed). -/
def isWS (c : Char) : Bool :=
  c == ' ' || c == '\t' || c == '\n' || c == '\r' ||
    c == Char.ofNat 11 || c == Char.ofNat 12

/-- The JS word-character class backslash-w without the unicode flag:
A-Z, a-z, 0-9 and underscore. -/
def isWordChar (c : Char) : Bool :=
  c.isAlphanum || c == '_'

/-- The character class a-zA-Z0-9 used negated inside the fuzzy pattern. -/
def isAlnumAscii (c : Char) : Bool :=
  c.isAlphanum

/-- The allow-set of the second replace in aggressiveMergeTokens, the JS
class of characters KEPT: word characters, whitespace, period, comma,
apostrophe, hyphen (the code removes the complement). -/
def isKeptChar (c : Char) : Bool :=
  isWordChar c || isWS c || c == '.' || c == ',' || c == Char.ofNat 39 || c == '-'

/-- JS String.prototype.trim on the character list (whitespace stripped
from both ends). -/
def jsTrim (l : List Char) : List Char :=
  ((l.dropWhile isWS).reverse.dropWhile isWS).reverse

/-- Token-text normalization of aggressiveMergeTokens:
word.replace(whitespace-run, empty).replace(complement-of-allow-set, empty).trim() . -/
def normalizeWord (w : String) : String :=
  String.mk (jsTrim ((w.data.filter (fun c => !(isWS c))).filter isKeptChar))

/-- entity.replace(anchored B- or I-, empty): strip one leading begin or
inside marker to obtain the base entity type. -/
def stripBI (s : String) : String :=
  match s.data with
  | 'B' :: '-' :: rest => String.mk rest
  | 'I' :: '-' :: rest => String.mk rest
  | _ => s

/-- The loop body of aggressiveMergeTokens: the accumulator named current
in the code, processed over the remaining predictions, flushing at the
end of the stream. -/
def mergeGo : Option Span → List Pred → List Span
  | cur, [] =>
    match cur with
    | some c => [c]
    | none => []
  | cur, p :: ps =>
    let ty := stripBI p.entity
    let w := normalizeWord p.word
    if w = "" then mergeGo cur ps
    else
      match cur with
      | none => mergeGo (some ⟨ty, w⟩) ps
      | some c =>
        if c.type = ty then mergeGo (some ⟨c.type, c.text ++ w⟩) ps
        else c :: mergeGo (some ⟨ty, w⟩) ps

/-- aggressiveMergeTokens of src/fileProcessor.js lines 51-79, for a
non-null prediction array. -/
def aggressiveMergeTokens (preds : List Pred) : List Span :=
  mergeGo none preds

/-- aggressiveMergeTokens including the guard for a null or missing
prediction array (the code returns the empty list for null exactly as
for the empty array). -/
def aggressiveMergeTokensOpt : Option (List Pred) → List Span
  | none => []
  | some preds => aggressiveMergeTokens preds

/-- The metacharacter set of escapeRegexChars in the code. -/
def isRegexMeta (c : Char) : Bool :=
  c == '-' || c == '/' || c == Char.ofNat 92 || c == '^' || c == '$' ||
    c == '*' || c == '+' || c == '?' || c == '.' || c == '(' || c == ')' ||
    c == '|' || c == '[' || c == ']' || c == Char.ofNat 123 || c == Char.ofNat 125

/-- escapeRegexChars of the code: a backslash is put before every
metacharacter. -/
def escapeRegexChars : List Char → List Char
  | [] => []
  | c :: rest => (if isRegexMeta c then [Char.ofNat 92, c] else [c]) ++ escapeRegexChars rest

/-- buildFuzzyRegex of src/fileProcessor.js lines 91-118.  The compiled
regex is modelled by its list of literal characters: the pattern the code
builds is each such character followed by a greedy run of zero or more
characters outside a-zA-Z0-9.  The characters surviving the first
replace are word characters, none of which is a metacharacter, so the
escaping step never inserts a backslash and compilation of the resulting
pattern cannot throw; the catch branch of the code is unreachable. -/
def buildFuzzyRegex (mergedString : String) : Option (List Char) :=
  let noPunc := mergedString.data.filter isWordChar
  if noPunc.isEmpty then none
  else
    let pattern := escapeRegexChars noPunc
    if pattern.isEmpty then none else some pattern

/-- Case-insensitive character comparison of the regex i flag (ASCII
folding). -/
def ciEq (a b : Char) : Bool :=
  a.toLower == b.toLower

/-- Matcher for the tail of the fuzzy pattern: a greedy, backtracking run
of zero or more non-alphanumeric characters, followed by the rest of the
literals (each again followed by such a run).  Returns the number of
characters consumed, preferring the longest run first, exactly as the
backtracking regex engine does. -/
def matchStar : List Char → List Char → Option Nat
  | ps, [] => if ps.isEmpty then some 0 else none
  | [], a :: s =>
    if isAlnumAscii a then some 0
    else
      match matchStar [] s with
      | some n => some (n + 1)
      | none => some 0
  | c :: ps2, a :: s =>
    if isAlnumAscii a then
      if ciEq c a then (matchStar ps2 s).map (· + 1) else none
    else
      match matchStar (c :: ps2) s with
      | some n => some (n + 1)
      | none => if ciEq c a then (matchStar ps2 s).map (· + 1) else none

/-- Match of the whole fuzzy pattern at the start of the given text:
first literal, then star run, then the remaining literals. -/
def matchPat : List Char → List Char → Option Nat
  | [], _ => some 0
  | _ :: _, [] => none
  | c :: ps, a :: s => if ciEq c a then (matchStar ps s).map (· + 1) else none

/-- String.prototype.replace with the global flag: scan left to right,
replace each leftmost match and continue after it.  The fuel argument is
initialized to the input length; every step consumes one unit of fuel and
at least one input character on a match, so fuel never runs out (the
fuel-zero branch is unreachable) and the recursion is structural, hence
executable by the kernel.  A zero-length match can only arise from the
empty pattern, which buildFuzzyRegex never returns. -/
def replaceGoF (pat rep : List Char) : Nat → List Char → List Char
  | _, [] => []
  | 0, a :: s => a :: s
  | fuel + 1, a :: s =>
    match matchPat pat (a :: s) with
    | some (n + 1) => rep ++ replaceGoF pat rep fuel (List.drop n s)
    | _ => a :: replaceGoF pat rep fuel s

/-- processedText.replace(fuzzyRegex, pseudonym): global fuzzy
replacement over a string. -/
def replaceFuzzy (pat : List Char) (rep : String) (s : String) : String :=
  String.mk (replaceGoF pat rep.data s.data.length s.data)

/-- The pseudonym registry: the module-level objects pseudonymMapping and
pseudonymCounters, as insertion-ordered association lists. -/
structure Registry where
  mapping : List (String × String)
  counters : List (String × Nat)
deriving DecidableEq

/-- The initial state of the two module-level objects. -/
def emptyRegistry : Registry := ⟨[], []⟩

/-- Association-list lookup: the own-property part of the JS read
obj[key].  The full JS read also walks the prototype chain; that part is
modelled below by readMap and readCnt for the registry claims that
depend on it. -/
def alookup {α : Type} : List (String × α) → String → Option α
  | [], _ => none
  | (k, v) :: rest, x => if k = x then some v else alookup rest x

/-- Association-list update, the JS property write obj[key] = v: replace
in place if present, else append. -/
def aset {α : Type} : List (String × α) → String → α → List (String × α)
  | [], x, v => [(x, v)]
  | (k, w) :: rest, x, v =>
    if k = x then (x, v) :: rest else (k, w) :: aset rest x v

/-- The counter value getPseudonym works with: the stored counter if it
is truthy (present and nonzero), else 1 (the code writes 1 into a falsy
slot before using it). -/
def effCounter (st : Registry) (ty : String) : Nat :=
  match alookup st.counters ty with
  | some n => if n = 0 then 1 else n
  | none => 1

/-- The assignment branch of getPseudonym: build type_counter, store the
mapping entry, post-increment the counter. -/
def assignPseudonym (entityText entityType : String) (st : Registry) : String × Registry :=
  let n := effCounter st entityType
  let p := entityType ++ "_" ++ toString n
  (p, ⟨aset st.mapping entityText p, aset st.counters entityType (n + 1)⟩)

/-- getPseudonym of src/fileProcessor.js lines 34-44, over own
properties only.  The condition if (pseudonymMapping[entityText]) is a
JS truthiness test: an entry holding the empty string is treated as
absent (assigned pseudonyms always contain an underscore, so this branch
distinction is unreachable from assigned entries).  For texts that name
an inherited member of Object.prototype the real read is truthy even
with no own entry; that case is modelled faithfully by getPseudonymJs
below, which agrees with this function on all other keys. -/
def getPseudonym (entityText entityType : String) (st : Registry) : String × Registry :=
  match alookup st.mapping entityText with
  | some p => if p = "" then assignPseudonym entityText entityType st else (p, st)
  | none => assignPseudonym entityText entityType st

/-- One iteration of the replacement loop of anonymizeText (lines
149-165): skip a falsy merged string; otherwise resolve the pseudonym
first (mutating the registry), then build the fuzzy regex, and if it is
null skip the replacement, else globally replace. -/
def anonymizeStep (acc : String × Registry) (sp : Span) : String × Registry :=
  if sp.text = "" then acc
  else
    let pr := getPseudonym sp.text sp.type acc.2
    match buildFuzzyRegex sp.text with
    | none => (acc.1, pr.2)
    | some pat => (replaceFuzzy pat pr.1 acc.1, pr.2)

/-- anonymizeText of src/fileProcessor.js lines 138-169, with the model
call factored out: the prediction stream is a parameter, and the two
module-level registry objects are passed as explicit state. -/
def anonymizeText (preds : List Pred) (text : String) (reg : Registry) : String × Registry :=
  (aggressiveMergeTokens preds).foldl anonymizeStep (text, reg)

/-- A sequence of getPseudonym calls threaded through the registry, used
to speak about later resolve calls. -/
def runCalls : List (String × String) → Registry → Registry
  | [], st => st
  | (x, ty) :: rest, st => runCalls rest (getPseudonym x ty st).2

/-- Number of calls in the list that take the assignment branch under the
given type when run from the given state: text not truthy in the mapping
and type equal. -/
def countFresh (T : String) : List (String × String) → Registry → Nat
  | [], _ => 0
  | (x, ty) :: rest, st =>
    (if (alookup st.mapping x = none ∨ alookup st.mapping x = some "") ∧ ty = T
      then 1 else 0)
      + countFresh T rest (getPseudonym x ty st).2

/-- The property names of Object.prototype: reading any of these on a
plain object with no own entry yields an inherited, truthy, non-string
value (a builtin function, or for the key __proto__ the prototype object
itself). -/
def protoKeys : List String :=
  ["constructor", "hasOwnProperty", "isPrototypeOf", "propertyIsEnumerable",
   "toLocaleString", "toString", "valueOf",
   "__defineGetter__", "__defineSetter__", "__lookupGetter__", "__lookupSetter__",
   "__proto__"]

/-- Result of the full JS property read on the mapping object: an own
string entry, an inherited Object.prototype member tagged by its name,
or undefined. -/
inductive MapRead where
  | own : String → MapRead
  | proto : String → MapRead
  | undef : MapRead
deriving DecidableEq

/-- pseudonymMapping[k], prototype chain included: own properties shadow
the inherited members. -/
def readMap (m : List (String × String)) (k : String) : MapRead :=
  match alookup m k with
  | some s => MapRead.own s
  | none => if k ∈ protoKeys then MapRead.proto k else MapRead.undef

/-- Result of the full JS property read on the counters object: an own
number (none standing for NaN), an inherited member, or undefined. -/
inductive CntRead where
  | own : Option Nat → CntRead
  | proto : String → CntRead
  | undef : CntRead
deriving DecidableEq

/-- pseudonymCounters[k], prototype chain included. -/
def readCnt (c : List (String × Option Nat)) (k : String) : CntRead :=
  match alookup c k with
  | some v => CntRead.own v
  | none => if k ∈ protoKeys then CntRead.proto k else CntRead.undef

/-- The registry with JS-faithful counter values: an own counter slot
can hold NaN (modelled as none) when the type name collides with an
inherited member, since incrementing a builtin function gives NaN. -/
structure JsRegistry where
  mapping : List (String × String)
  counters : List (String × Option Nat)
deriving DecidableEq

/-- The initial state of the two module-level objects, JS model. -/
def emptyJsRegistry : JsRegistry := ⟨[], []⟩

/-- A property write obj[k] = v on a plain object: stored as an own
entry, except that assigning to the key __proto__ invokes the inherited
setter, which for the non-object values written here is a no-op. -/
def asetJs {α : Type} (m : List (String × α)) (k : String) (v : α) : List (String × α) :=
  if k = "__proto__" then m else aset m k v

/-- What getPseudonym can return in the JS model: the string it computed
or found stored, or an inherited Object.prototype member that passed the
truthiness test and is returned unchanged. -/
inductive JsRet where
  | str : String → JsRet
  | protoMember : String → JsRet
deriving DecidableEq

/-- The assignment branch of getPseudonym, JS-faithfully: a falsy counter
slot (undefined, 0 or NaN) is initialized to 1; the post-increment reads
the slot, coercing an inherited member to NaN; the computed pseudonym,
with NaN printed as NaN, is stored under the text. -/
def assignJs (entityText entityType : String) (st : JsRegistry) : JsRet × JsRegistry :=
  let falsy : Bool :=
    match readCnt st.counters entityType with
    | CntRead.own (some n) => n == 0
    | CntRead.own none => true
    | CntRead.proto _ => false
    | CntRead.undef => true
  let counters1 := if falsy then asetJs st.counters entityType (some 1) else st.counters
  let nval : Option Nat :=
    match readCnt counters1 entityType with
    | CntRead.own v => v
    | CntRead.proto _ => none
    | CntRead.undef => none
  let counters2 := asetJs counters1 entityType (nval.map (· + 1))
  let pseudonym :=
    entityType ++ "_" ++ (match nval with | some n => toString n | none => "NaN")
  (JsRet.str pseudonym, ⟨asetJs st.mapping entityText pseudonym, counters2⟩)

/-- getPseudonym of src/fileProcessor.js lines 34-44 with the JS
prototype chain modelled: the truthiness test on
pseudonymMapping[entityText] also passes for an inherited
Object.prototype member, which is then returned unchanged, with no
assignment and no counter movement. -/
def getPseudonymJs (entityText entityType : String) (st : JsRegistry) : JsRet × JsRegistry :=
  match readMap st.mapping entityText with
  | MapRead.own p =>
    if p = "" then assignJs entityText entityType st else (JsRet.str p, st)
  | MapRead.proto k => (JsRet.protoMember k, st)
  | MapRead.undef => assignJs entityText entityType st

/-- A sequence of JS-model resolve calls threaded through the registry. -/
def runCallsJs : List (String × String) → JsRegistry → JsRegistry
  | [], st => st
  | (x, ty) :: rest, st => runCallsJs rest (getPseudonymJs x ty st).2

/-- Embedding of the own-property registry into the JS one: same mapping,
counters all proper numbers. -/
def toJsRegistry (st : Registry) : JsRegistry :=
  ⟨st.mapping, st.counters.map (fun kv => (kv.1, some kv.2))⟩

/-- Instrumented variant of mergeGo that records, with each emitted span,
the zero-based index of the prediction that opened it. -/
def mergeGoIdx : Option (Nat × Span) → Nat → List Pred → List (Nat × Span)
  | cur, _, [] =>
    match cur with
    | some c => [c]
    | none => []
  | cur, i, p :: ps =>
    let ty := stripBI p.entity
    let w := normalizeWord p.word
    if w = "" then mergeGoIdx cur (i + 1) ps
    else
      match cur with
      | none => mergeGoIdx (some (i, ⟨ty, w⟩)) (i + 1) ps
      | some jc =>
        if jc.2.type = ty then
          mergeGoIdx (some (jc.1, ⟨jc.2.type, jc.2.text ++ w⟩)) (i + 1) ps
        else jc :: mergeGoIdx (some (i, ⟨ty, w⟩)) (i + 1) ps

/-- aggressiveMergeTokens with opener indices. -/
def mergeIdx (preds : List Pred) : List (Nat × Span) :=
  mergeGoIdx none 0 preds

/-- The end-to-end scenario prediction stream of the spec: John Smith as
PERSON, 123 Main St as LOCATION, 555-1234 as PHONE. -/
def c1Preds : List Pred :=
  [⟨"B-PERSON", "John"⟩, ⟨"I-PERSON", " Smith"⟩,
   ⟨"B-LOCATION", "123"⟩, ⟨"I-LOCATION", " Main"⟩, ⟨"I-LOCATION", " St"⟩,
   ⟨"B-PHONE", "555"⟩, ⟨"I-PHONE", "-1234"⟩]

/-- The merge-continuity example stream of the spec, with an O token
between the PER and LOC entities. -/
def c2Preds : List Pred :=
  [⟨"B-PER", "John"⟩, ⟨"I-PER", " Smith"⟩, ⟨"O", " works"⟩, ⟨"B-LOC", "London"⟩]

/- ------------------------------------------------------------------ -/
/- Supporting lemmas                                                   -/
/- ------------------------------------------------------------------ -/

/-- No regex metacharacter is a word character. -/
lemma word_not_meta (c : Char) (h : isRegexMeta c = true) : isWordChar c = false := by
  simp only [isRegexMeta, Bool.or_eq_true, beq_iff_eq] at h
  rcases h with ((((((((((((((rfl | rfl) | rfl) | rfl) | rfl) | rfl) | rfl) | rfl) | rfl) |
    rfl) | rfl) | rfl) | rfl) | rfl) | rfl) | rfl <;> rfl

/-- Escaping is the identity on a list of word characters. -/
lemma escape_word_id : ∀ l : List Char, (∀ c ∈ l, isWordChar c = true) →
    escapeRegexChars l = l := by
  intro l
  induction l with
  | nil => intro _; rfl
  | cons c rest ih =>
    intro h
    have hc : isWordChar c = true := h c (List.mem_cons_self c rest)
    have hm : isRegexMeta c = false := by
      cases hq : isRegexMeta c
      · rfl
      · rw [word_not_meta c hq] at hc; exact absurd hc (by simp)
    simp [escapeRegexChars, hm, ih (fun d hd => h d (List.mem_cons_of_mem c hd))]

/-- A lookup after an update at the same key. -/
lemma alookup_aset_self {α : Type} (m : List (String × α)) (k : String) (v : α) :
    alookup (aset m k v) k = some v := by
  induction m with
  | nil => simp [aset, alookup]
  | cons kv rest ih =>
    obtain ⟨k0, v0⟩ := kv
    by_cases hk : k0 = k
    · simp [aset, hk, alookup]
    · simp [aset, hk, alookup, ih]

/-- A lookup after an update at a different key. -/
lemma alookup_aset_ne {α : Type} (m : List (String × α)) (k x : String) (v : α)
    (hk : k ≠ x) : alookup (aset m k v) x = alookup m x := by
  induction m with
  | nil => simp [aset, alookup, hk]
  | cons kv rest ih =>
    obtain ⟨k0, v0⟩ := kv
    by_cases h0 : k0 = k
    · subst h0; simp [aset, alookup, hk]
    · by_cases hx : k0 = x
      · subst hx; simp [aset, alookup, h0]
      · simp [aset, h0, alookup, hx, ih]

/-- Appending a nonempty string gives a nonempty string. -/
lemma append_ne_empty_right (s t : String) (h : t ≠ "") : s ++ t ≠ "" := by
  intro hc
  apply h
  have hd := congrArg String.data hc
  rw [String.data_append] at hd
  have hd2 : s.data ++ t.data = ([] : List Char) := hd
  exact String.ext (List.append_eq_nil.mp hd2).2

/- ------------------------------------------------------------------ -/
/- Claim theorems                                                      -/
/- ------------------------------------------------------------------ -/

/-- Claim C1.  Evaluation of the code on the end-to-end scenario input:
the prediction stream marking John Smith as PERSON, 123 Main St as
LOCATION and 555-1234 as PHONE.  Because the fuzzy pattern places a
greedy non-alphanumeric run after every literal, including the last one,
the one-character separator following each entity occurrence is consumed
by the match and removed by the replacement, so the output is
PERSON_1lives at LOCATION_1Contact PERSON_1at PHONE_1 and not the string
the claim states.  Exactly one PERSON pseudonym is allocated and reused
(the registry holds a single PERSON entry and the PERSON counter stands
at 2): that part of the claim holds. -/
theorem C1_code_behavior :
    anonymizeText c1Preds
        "John Smith lives at 123 Main St. Contact John Smith at 555-1234." emptyRegistry =
      ("PERSON_1lives at LOCATION_1Contact PERSON_1at PHONE_1",
        ⟨[("JohnSmith", "PERSON_1"), ("123MainSt", "LOCATION_1"), ("555-1234", "PHONE_1")],
         [("PERSON", 2), ("LOCATION", 2), ("PHONE", 2)]⟩) ∧
    ("PERSON_1lives at LOCATION_1Contact PERSON_1at PHONE_1" : String) ≠
      "PERSON_1 lives at LOCATION_1. Contact PERSON_1 at PHONE_1." := by
  exact ⟨by decide, by decide⟩

/-- Claim C2, counterexample.  On the merge-continuity stream the merger
emits the O token as a span of its own, so the output is not the
two-span list the claim states: the span (O, works) is a member of the
result. -/
theorem C2_counterexample :
    (⟨"O", "works"⟩ : Span) ∈ aggressiveMergeTokens c2Preds ∧
    aggressiveMergeTokens c2Preds ≠ [⟨"PER", "JohnSmith"⟩, ⟨"LOC", "London"⟩] := by
  exact ⟨by decide, by decide⟩

/-- Claim C2, amended.  The merger treats the OUTSIDE label as an
ordinary entity type: an O token with nonempty normalized text flushes an
open accumulator of a different type and then opens (and eventually
emits) an accumulator of type O, so the stream merges to the three spans
(PER, JohnSmith), (O, works), (LOC, London). -/
theorem C2_amended :
    aggressiveMergeTokens c2Preds =
      [⟨"PER", "JohnSmith"⟩, ⟨"O", "works"⟩, ⟨"LOC", "London"⟩] := by
  decide

/-- Claim C4, counterexample.  getPseudonym itself has no empty-text
guard: called directly with the empty string it allocates a pseudonym,
stores a mapping entry for the empty string, and bumps the PERSON
counter from its initial value to 2. -/
theorem C4_counterexample :
    getPseudonym "" "PERSON" emptyRegistry =
      ("PERSON_1", ⟨[("", "PERSON_1")], [("PERSON", 2)]⟩) ∧
    alookup (getPseudonym "" "PERSON" emptyRegistry).2.mapping "" = some "PERSON_1" := by
  exact ⟨by decide, by decide⟩

/-- Claim C4, amended.  The empty-text guard lives in the pipeline, not
in the registry: the replacement loop of anonymizeText skips a span
whose merged text is empty before resolving a pseudonym, so within the
pipeline no pseudonym is requested for the empty text, no mapping entry
is created and no counter changes. -/
theorem C4_amended (acc : String × Registry) (ty : String) :
    anonymizeStep acc ⟨ty, ""⟩ = acc := by
  simp [anonymizeStep]

/-- Claim C9.  The fuzzy pattern built from the merged span JohnSmith is
the literal list of its characters, and global replacement with it
rewrites each of John Smith, John-Smith and JOHN SMITH (case-insensitive,
tolerant of non-alphanumeric separators) to the pseudonym. -/
theorem C9_fuzzy_tolerance :
    buildFuzzyRegex "JohnSmith" = some "JohnSmith".data ∧
    replaceFuzzy "JohnSmith".data "PERSON_1" "John Smith" = "PERSON_1" ∧
    replaceFuzzy "JohnSmith".data "PERSON_1" "John-Smith" = "PERSON_1" ∧
    replaceFuzzy "JohnSmith".data "PERSON_1" "JOHN SMITH" = "PERSON_1" := by
  exact ⟨by decide, by decide, by decide, by decide⟩

/-- Claim C3.  A token whose text normalizes to the empty string is
skipped without disturbing an in-progress accumulation: dropping it from
the stream changes nothing, and in particular a type-T token, such an
empty-normalizing fragment, and another type-T token merge into the
single span whose text is the concatenation of the two normalized
texts. -/
theorem C3_empty_token_skipped (j : Pred) (h : normalizeWord j.word = "") :
    (∀ (cur : Option Span) (rest : List Pred), mergeGo cur (j :: rest) = mergeGo cur rest) ∧
    (∀ t1 t2 : Pred, stripBI t1.entity = stripBI t2.entity →
      normalizeWord t1.word ≠ "" → normalizeWord t2.word ≠ "" →
      aggressiveMergeTokens [t1, j, t2] =
        [⟨stripBI t1.entity, normalizeWord t1.word ++ normalizeWord t2.word⟩]) := by
  have hskip : ∀ (cur : Option Span) (rest : List Pred),
      mergeGo cur (j :: rest) = mergeGo cur rest := by
    intro cur rest
    simp [mergeGo, h]
  refine ⟨hskip, ?_⟩
  intro t1 t2 heq h1 h2
  have s1 : mergeGo none [t1, j, t2] =
      mergeGo (some ⟨stripBI t1.entity, normalizeWord t1.word⟩) [j, t2] := by
    simp [mergeGo, h1]
  have s2 : mergeGo (some ⟨stripBI t1.entity, normalizeWord t1.word⟩) [j, t2] =
      mergeGo (some ⟨stripBI t1.entity, normalizeWord t1.word⟩) [t2] := hskip _ _
  have s3 : mergeGo (some ⟨stripBI t1.entity, normalizeWord t1.word⟩) [t2] =
      [⟨stripBI t1.entity, normalizeWord t1.word ++ normalizeWord t2.word⟩] := by
    simp [mergeGo, h2, ← heq]
  rw [aggressiveMergeTokens, s1, s2, s3]

/-- Witness for C3: a punctuation-only fragment between two PER tokens
does not break the merge. -/
theorem C3_witness :
    aggressiveMergeTokens [⟨"B-PER", "John"⟩, ⟨"O", "!!"⟩, ⟨"I-PER", " Smith"⟩] =
      [⟨"PER", "JohnSmith"⟩] := by
  have h := (C3_empty_token_skipped ⟨"O", "!!"⟩ (by decide)).2 ⟨"B-PER", "John"⟩
    ⟨"I-PER", " Smith"⟩ (by decide) (by decide) (by decide)
  exact h.trans (by decide)

/-- A resolve call that finds a truthy mapping entry returns it and
leaves the whole registry unchanged. -/
lemma getPseudonym_found {st : Registry} {x p : String} (ty : String)
    (hx : alookup st.mapping x = some p) (hp : p ≠ "") :
    getPseudonym x ty st = (p, st) := by
  unfold getPseudonym
  rw [hx]
  simp [hp]

/-- Any single resolve call preserves an existing truthy mapping entry. -/
lemma mapping_preserved {st : Registry} {x p : String} (hx : alookup st.mapping x = some p)
    (hp : p ≠ "") (y ty : String) :
    alookup (getPseudonym y ty st).2.mapping x = some p := by
  by_cases hxy : y = x
  · subst hxy
    rw [getPseudonym_found ty hx hp]
    exact hx
  · cases hy : alookup st.mapping y with
    | none =>
      have hstep : getPseudonym y ty st = assignPseudonym y ty st := by
        unfold getPseudonym; rw [hy]
      rw [hstep]
      simp only [assignPseudonym]
      rw [alookup_aset_ne _ _ _ _ hxy]
      exact hx
    | some q =>
      by_cases hq : q = ""
      · subst hq
        have hstep : getPseudonym y ty st = assignPseudonym y ty st := by
          unfold getPseudonym; rw [hy]; simp
        rw [hstep]
        simp only [assignPseudonym]
        rw [alookup_aset_ne _ _ _ _ hxy]
        exact hx
      · rw [getPseudonym_found ty hy hq]
        exact hx

/-- Any sequence of resolve calls preserves an existing truthy mapping
entry. -/
lemma mapping_preserved_runCalls {x p : String} (hp : p ≠ "") :
    ∀ (calls : List (String × String)) (st : Registry),
      alookup st.mapping x = some p → alookup (runCalls calls st).mapping x = some p := by
  intro calls
  induction calls with
  | nil => intro st hx; exact hx
  | cons c rest ih =>
    obtain ⟨y, ty⟩ := c
    intro st hx
    exact ih _ (mapping_preserved hx hp y ty)

/-- Claim C5.  Once a pseudonym (always a nonempty string) is stored for
a text, every later resolve call with that text, after any further
sequence of calls and under any entity type, returns exactly the stored
pseudonym and leaves the registry completely unchanged: no mapping entry
is changed or removed and no counter moves. -/
theorem C5_registry_stable (st : Registry) (x p : String)
    (hx : alookup st.mapping x = some p) (hp : p ≠ "")
    (calls : List (String × String)) (ty : String) :
    getPseudonym x ty (runCalls calls st) = (p, runCalls calls st) :=
  getPseudonym_found ty (mapping_preserved_runCalls hp calls st hx) hp

/-- Witness for C5: with a-maps-to-T_1 stored, after an unrelated call
the text a still resolves to T_1 under a different type, with the state
untouched. -/
theorem C5_witness :
    getPseudonym "a" "V" (runCalls [("b", "U")] ⟨[("a", "T_1")], [("T", 2)]⟩) =
      ("T_1", runCalls [("b", "U")] ⟨[("a", "T_1")], [("T", 2)]⟩) :=
  C5_registry_stable ⟨[("a", "T_1")], [("T", 2)]⟩ "a" "T_1" (by decide) (by decide)
    [("b", "U")] "V"

/-- The assignment branch bumps exactly the counter of its own type. -/
lemma effCounter_assign (st : Registry) (x ty T : String) :
    effCounter (assignPseudonym x ty st).2 T =
      effCounter st T + (if ty = T then 1 else 0) := by
  simp only [assignPseudonym]
  by_cases hT : ty = T
  · subst hT
    unfold effCounter
    rw [alookup_aset_self]
    simp
  · unfold effCounter
    rw [alookup_aset_ne _ _ _ _ hT]
    simp [hT]

/-- One resolve call moves the effective counter of type T by one
exactly when it takes the assignment branch under T. -/
lemma effCounter_getPseudonym (st : Registry) (x ty T : String) :
    effCounter (getPseudonym x ty st).2 T =
      effCounter st T +
        (if (alookup st.mapping x = none ∨ alookup st.mapping x = some "") ∧ ty = T
          then 1 else 0) := by
  cases hy : alookup st.mapping x with
  | none =>
    have hstep : (getPseudonym x ty st).2 = (assignPseudonym x ty st).2 := by
      unfold getPseudonym; rw [hy]
    rw [hstep, effCounter_assign]
    simp [hy]
  | some q =>
    by_cases hq : q = ""
    · subst hq
      have hstep : (getPseudonym x ty st).2 = (assignPseudonym x ty st).2 := by
        unfold getPseudonym; rw [hy]; simp
      rw [hstep, effCounter_assign]
      simp [hy]
    · have hstep : (getPseudonym x ty st).2 = st := by
        unfold getPseudonym; rw [hy]; simp [hq]
      rw [hstep]
      simp [hy, hq]

/-- The effective counter after a call sequence is its starting value
plus the number of assignment-branch calls of that type. -/
lemma effCounter_runCalls (T : String) :
    ∀ (calls : List (String × String)) (st : Registry),
      effCounter (runCalls calls st) T = effCounter st T + countFresh T calls st := by
  intro calls
  induction calls with
  | nil => intro st; simp [runCalls, countFresh]
  | cons c rest ih =>
    obtain ⟨y, ty⟩ := c
    intro st
    have h1 : runCalls ((y, ty) :: rest) st = runCalls rest (getPseudonym y ty st).2 := rfl
    have h2 : countFresh T ((y, ty) :: rest) st =
        (if (alookup st.mapping y = none ∨ alookup st.mapping y = some "") ∧ ty = T
          then 1 else 0) + countFresh T rest (getPseudonym y ty st).2 := rfl
    rw [h1, h2, ih, effCounter_getPseudonym]
    omega

/-- A key outside the Object.prototype name list is in particular not
the key __proto__. -/
lemma ne_proto_of_not_mem {k : String} (h : k ∉ protoKeys) : k ≠ "__proto__" := by
  intro hk
  apply h
  rw [hk]
  decide

/-- Lookup commutes with wrapping every counter value in some. -/
lemma alookup_map_some (c : List (String × Nat)) (k : String) :
    alookup (c.map (fun kv => (kv.1, some kv.2))) k = (alookup c k).map some := by
  induction c with
  | nil => rfl
  | cons kv rest ih =>
    obtain ⟨k0, v0⟩ := kv
    by_cases hk : k0 = k
    · simp [alookup, hk]
    · simp [alookup, hk, ih]

/-- Two successive writes to the same key collapse to the second. -/
lemma aset_aset {α : Type} (m : List (String × α)) (k : String) (v w : α) :
    aset (aset m k v) k w = aset m k w := by
  induction m with
  | nil => simp [aset]
  | cons kv rest ih =>
    obtain ⟨k0, v0⟩ := kv
    by_cases hk : k0 = k
    · simp [aset, hk]
    · simp [aset, hk, ih]

/-- Update commutes with wrapping every counter value in some. -/
lemma aset_map_some (c : List (String × Nat)) (k : String) (v : Nat) :
    (aset c k v).map (fun kv => (kv.1, some kv.2)) =
      aset (c.map (fun kv => (kv.1, some kv.2))) k (some v) := by
  induction c with
  | nil => rfl
  | cons kv rest ih =>
    obtain ⟨k0, v0⟩ := kv
    by_cases hk : k0 = k
    · simp [aset, hk]
    · simp [aset, hk, ih]

/-- On a type outside the prototype name list, the JS assignment branch
agrees with the own-property assignment branch. -/
lemma assignJs_agrees (x ty : String) (st : Registry)
    (hx : x ∉ protoKeys) (hty : ty ∉ protoKeys) :
    assignJs x ty (toJsRegistry st) =
      (JsRet.str (assignPseudonym x ty st).1, toJsRegistry (assignPseudonym x ty st).2) := by
  have hxp : x ≠ "__proto__" := ne_proto_of_not_mem hx
  have htyp : ty ≠ "__proto__" := ne_proto_of_not_mem hty
  cases hc : alookup st.counters ty with
  | none =>
    have hread : readCnt (st.counters.map (fun kv => (kv.1, some kv.2))) ty =
        CntRead.undef := by
      simp [readCnt, alookup_map_some, hc, hty]
    have hread2 : readCnt (aset (st.counters.map (fun kv => (kv.1, some kv.2))) ty (some 1))
        ty = CntRead.own (some 1) := by
      simp [readCnt, alookup_aset_self]
    simp [assignJs, hread, hread2, asetJs, htyp, hxp, assignPseudonym, effCounter, hc,
      toJsRegistry, aset_aset, aset_map_some]
  | some n =>
    by_cases hn : n = 0
    · subst hn
      have hread : readCnt (st.counters.map (fun kv => (kv.1, some kv.2))) ty =
          CntRead.own (some 0) := by
        simp [readCnt, alookup_map_some, hc]
      have hread2 : readCnt (aset (st.counters.map (fun kv => (kv.1, some kv.2))) ty
          (some 1)) ty = CntRead.own (some 1) := by
        simp [readCnt, alookup_aset_self]
      simp [assignJs, hread, hread2, asetJs, htyp, hxp, assignPseudonym, effCounter, hc,
        toJsRegistry, aset_aset, aset_map_some]
    · have hread : readCnt (st.counters.map (fun kv => (kv.1, some kv.2))) ty =
          CntRead.own (some n) := by
        simp [readCnt, alookup_map_some, hc]
      simp [assignJs, hread, asetJs, htyp, hxp, assignPseudonym, effCounter, hc,
        toJsRegistry, aset_map_some, hn]

/-- On a text and type outside the prototype name list, the JS resolve
agrees with the own-property resolve. -/
lemma getPseudonymJs_agrees (x ty : String) (st : Registry)
    (hx : x ∉ protoKeys) (hty : ty ∉ protoKeys) :
    getPseudonymJs x ty (toJsRegistry st) =
      (JsRet.str (getPseudonym x ty st).1, toJsRegistry (getPseudonym x ty st).2) := by
  cases hm : alookup st.mapping x with
  | none =>
    have hread : readMap (toJsRegistry st).mapping x = MapRead.undef := by
      simp [readMap, toJsRegistry, hm, hx]
    have hgp : getPseudonym x ty st = assignPseudonym x ty st := by
      unfold getPseudonym; rw [hm]
    rw [hgp]
    simp [getPseudonymJs, hread, assignJs_agrees x ty st hx hty]
  | some p =>
    have hread : readMap (toJsRegistry st).mapping x = MapRead.own p := by
      simp [readMap, toJsRegistry, hm]
    by_cases hp : p = ""
    · subst hp
      have hgp : getPseudonym x ty st = assignPseudonym x ty st := by
        unfold getPseudonym; rw [hm]; simp
      rw [hgp]
      simp [getPseudonymJs, hread, assignJs_agrees x ty st hx hty]
    · rw [getPseudonym_found ty hm hp]
      simp [getPseudonymJs, hread, hp]

/-- On calls whose texts and types avoid the prototype name list, a JS
call sequence agrees with the own-property call sequence. -/
lemma runCallsJs_agrees : ∀ (calls : List (String × String)) (st : Registry),
    (∀ c ∈ calls, c.1 ∉ protoKeys ∧ c.2 ∉ protoKeys) →
    runCallsJs calls (toJsRegistry st) = toJsRegistry (runCalls calls st) := by
  intro calls
  induction calls with
  | nil => intro st _; rfl
  | cons c rest ih =>
    obtain ⟨y, ty⟩ := c
    intro st hcalls
    have hy := hcalls (y, ty) (List.mem_cons_self _ _)
    have h1 : runCallsJs ((y, ty) :: rest) (toJsRegistry st) =
        runCallsJs rest (getPseudonymJs y ty (toJsRegistry st)).2 := rfl
    rw [h1, getPseudonymJs_agrees y ty st hy.1 hy.2]
    show runCallsJs rest (toJsRegistry (getPseudonym y ty st).2) = _
    exact ih _ (fun c hc => hcalls c (List.mem_cons_of_mem _ hc))

/-- Claim C6, counterexample.  The word constructor is a perfectly
reachable merged text (letters only), previously unseen in the empty
registry, yet its first resolve under PERSON does not receive PERSON_1:
the truthiness test finds the inherited Object.prototype.constructor, so
the code returns that builtin member, allocates nothing, stores nothing
and moves no counter. -/
theorem C6_counterexample :
    getPseudonymJs "constructor" "PERSON" emptyJsRegistry =
      (JsRet.protoMember "constructor", emptyJsRegistry) ∧
    (getPseudonymJs "constructor" "PERSON" emptyJsRegistry).1 ≠ JsRet.str "PERSON_1" := by
  exact ⟨by decide, by decide⟩

/-- Claim C6, amended.  For texts and types that do not name an
Object.prototype member: a JS call sequence from the empty registry
agrees with the own-property model, the effective counter of a type T
equals one plus the number of first-sight assignments under T so far (so
it starts at 1 and moves only on first sight of a new text), and
resolving a previously unseen such text under T as the next call yields
exactly the pseudonym T_n where n is that counter value, the n-th
distinct new entity of the type receiving suffix n. -/
theorem C6_amended (calls : List (String × String)) (x T : String)
    (hx : x ∉ protoKeys) (hT : T ∉ protoKeys)
    (hcalls : ∀ c ∈ calls, c.1 ∉ protoKeys ∧ c.2 ∉ protoKeys)
    (hfresh : alookup (runCalls calls emptyRegistry).mapping x = none) :
    runCallsJs calls emptyJsRegistry = toJsRegistry (runCalls calls emptyRegistry) ∧
    effCounter (runCalls calls emptyRegistry) T = countFresh T calls emptyRegistry + 1 ∧
    (getPseudonymJs x T (toJsRegistry (runCalls calls emptyRegistry))).1 =
      JsRet.str (T ++ "_" ++ toString (countFresh T calls emptyRegistry + 1)) := by
  have hrun : runCallsJs calls emptyJsRegistry =
      toJsRegistry (runCalls calls emptyRegistry) :=
    runCallsJs_agrees calls emptyRegistry hcalls
  have heff : effCounter (runCalls calls emptyRegistry) T =
      countFresh T calls emptyRegistry + 1 := by
    rw [effCounter_runCalls]
    have hbase : effCounter emptyRegistry T = 1 := rfl
    omega
  refine ⟨hrun, heff, ?_⟩
  rw [getPseudonymJs_agrees x T _ hx hT]
  have hstep : getPseudonym x T (runCalls calls emptyRegistry) =
      assignPseudonym x T (runCalls calls emptyRegistry) := by
    unfold getPseudonym; rw [hfresh]
  rw [hstep]
  show JsRet.str (T ++ "_" ++ toString (effCounter (runCalls calls emptyRegistry) T)) = _
  rw [heff]

/-- Witness for C6: after two distinct new T entities and one U entity,
none of the names touching Object.prototype, the next new text under T
receives T_3 in the JS model. -/
theorem C6_witness :
    (getPseudonymJs "d" "T"
        (toJsRegistry (runCalls [("a", "T"), ("b", "T"), ("c", "U")] emptyRegistry))).1 =
      JsRet.str "T_3" := by
  have h := (C6_amended [("a", "T"), ("b", "T"), ("c", "U")] "d" "T" (by decide) (by decide)
    (by decide) (by decide)).2.2
  exact h.trans (by decide)

/-- Membership in the word-character class, spelled with the library
predicates. -/
lemma isWordChar_iff (c : Char) : isWordChar c = true ↔ (c.isAlphanum ∨ c = '_') := by
  simp [isWordChar]

/-- Closed form of buildFuzzyRegex: null exactly when no word character
survives, else the list of surviving word characters (escaping is the
identity on them). -/
lemma buildFuzzyRegex_eq (s : String) :
    buildFuzzyRegex s =
      if s.data.filter isWordChar = [] then none else some (s.data.filter isWordChar) := by
  have hesc : escapeRegexChars (s.data.filter isWordChar) = s.data.filter isWordChar :=
    escape_word_id _ (fun c hc => (List.mem_filter.mp hc).2)
  unfold buildFuzzyRegex
  by_cases hemp : s.data.filter isWordChar = []
  · simp [hemp]
  · simp [hemp, hesc]

/-- Claim C7, counterexample.  The underscore is not alphanumeric, yet
buildFuzzyRegex of the one-underscore span is not null: the builder
strips by the word-character class, which keeps underscores, so null is
not returned exactly for alphanumeric-free texts. -/
theorem C7_counterexample :
    (∀ c ∈ "_".data, c.isAlphanum = false) ∧ buildFuzzyRegex "_" ≠ none := by
  exact ⟨by decide, by decide⟩

/-- Claim C7, amended.  The builder strips all characters outside the
word-character class (alphanumerics and underscore) and returns null
exactly when the span text contains no word character; otherwise the
pattern is built from exactly the surviving word characters. -/
theorem C7_amended (s : String) :
    (buildFuzzyRegex s = none ↔ ∀ c ∈ s.data, ¬ (c.isAlphanum ∨ c = '_')) ∧
    (∀ p, buildFuzzyRegex s = some p →
      p = s.data.filter isWordChar ∧ ∀ c ∈ p, c.isAlphanum ∨ c = '_') := by
  constructor
  · rw [buildFuzzyRegex_eq]
    constructor
    · intro h c hc hcw
      have hfil : s.data.filter isWordChar = [] := by
        by_cases hemp : s.data.filter isWordChar = []
        · exact hemp
        · simp [hemp] at h
      have hmem : c ∈ s.data.filter isWordChar :=
        List.mem_filter.mpr ⟨hc, (isWordChar_iff c).mpr hcw⟩
      rw [hfil] at hmem
      simp at hmem
    · intro hnone
      have hfil : s.data.filter isWordChar = [] :=
        List.filter_eq_nil_iff.mpr
          (fun a ha haw => hnone a ha ((isWordChar_iff a).mp haw))
      simp [hfil]
  · intro p hp
    rw [buildFuzzyRegex_eq] at hp
    by_cases hemp : s.data.filter isWordChar = []
    · simp [hemp] at hp
    · rw [if_neg hemp] at hp
      have hpe : s.data.filter isWordChar = p := Option.some_injective _ hp
      refine ⟨hpe.symm, fun c hc => ?_⟩
      rw [← hpe] at hc
      exact (isWordChar_iff c).mp (List.mem_filter.mp hc).2

/-- Witness for C7: on the span a-b1 the builder keeps exactly the word
characters a, b, 1, all alphanumeric. -/
theorem C7_witness :
    (['a', 'b', '1'] : List Char) = "a-b1".data.filter isWordChar ∧
    (∀ c ∈ (['a', 'b', '1'] : List Char), c.isAlphanum ∨ c = '_') :=
  (C7_amended "a-b1").2 ['a', 'b', '1'] (by decide)

/-- Claim C8, counterexample.  No maximum span length is enforced before
pattern construction: for every candidate cap there is a longer span (a
run of the letter a) for which the builder still returns a pattern. -/
theorem C8_counterexample :
    ¬ ∃ cap : Nat, ∀ s : String, s.length > cap → buildFuzzyRegex s = none := by
  rintro ⟨cap, h⟩
  have hrep : ∀ c ∈ List.replicate (cap + 1) 'a', isWordChar c = true := by
    intro c hc
    rw [List.eq_of_mem_replicate hc]
    rfl
  have hfil : (List.replicate (cap + 1) 'a').filter isWordChar =
      List.replicate (cap + 1) 'a' := List.filter_eq_self.mpr hrep
  have hlen : (String.mk (List.replicate (cap + 1) 'a')).length > cap := by
    show (List.replicate (cap + 1) 'a').length > cap
    simp
  have hval := h (String.mk (List.replicate (cap + 1) 'a')) hlen
  rw [buildFuzzyRegex_eq] at hval
  have hdata : (String.mk (List.replicate (cap + 1) 'a')).data =
      List.replicate (cap + 1) 'a' := rfl
  rw [hdata, hfil] at hval
  have hne : List.replicate (cap + 1) 'a' ≠ [] := by
    simp [List.replicate_succ]
  rw [if_neg hne] at hval
  exact absurd hval (by simp)

/-- Claim C8, amended.  There is no length cap; in this model pattern
compilation cannot fail (the pattern is literal word characters, each
followed by a fixed character class).  What does hold is the fail-soft
skip: when the builder returns null for a span, the pipeline performs no
replacement for it, leaves the working text exactly as it was, and
continues with the remaining spans (the registry still records the
pseudonym, which the code resolves before building the pattern). -/
theorem C8_amended (t : String) (reg : Registry) (ty txt : String) (rest : List Span)
    (hne : txt ≠ "") (hnone : buildFuzzyRegex txt = none) :
    List.foldl anonymizeStep (t, reg) (⟨ty, txt⟩ :: rest) =
      List.foldl anonymizeStep (t, (getPseudonym txt ty reg).2) rest := by
  simp [anonymizeStep, hne, hnone]

/-- Witness for C8: a span of two hyphens yields no pattern, and the
pipeline passes the text through unchanged while continuing. -/
theorem C8_witness :
    List.foldl anonymizeStep ("a--b", emptyRegistry) [⟨"LOC", "--"⟩] =
      ("a--b", (getPseudonym "--" "LOC" emptyRegistry).2) :=
  C8_amended "a--b" emptyRegistry "LOC" "--" [] (by decide) (by decide)

/-- Every span the merge loop emits has nonempty text, provided any open
accumulator does (tokens only enter with nonempty normalized text). -/
lemma mergeGo_text_ne : ∀ (ps : List Pred) (cur : Option Span),
    (∀ c, cur = some c → c.text ≠ "") → ∀ sp ∈ mergeGo cur ps, sp.text ≠ "" := by
  intro ps
  induction ps with
  | nil =>
    intro cur hcur sp hsp
    cases cur with
    | none => simp [mergeGo] at hsp
    | some c =>
      simp [mergeGo] at hsp
      rw [hsp]
      exact hcur c rfl
  | cons p ps ih =>
    intro cur hcur sp hsp
    by_cases hw : normalizeWord p.word = ""
    · rw [show mergeGo cur (p :: ps) = mergeGo cur ps from by simp [mergeGo, hw]] at hsp
      exact ih cur hcur sp hsp
    · cases cur with
      | none =>
        rw [show mergeGo none (p :: ps) =
            mergeGo (some ⟨stripBI p.entity, normalizeWord p.word⟩) ps from by
          simp [mergeGo, hw]] at hsp
        refine ih _ (fun c hc => ?_) sp hsp
        cases hc
        exact hw
      | some c =>
        by_cases hty : c.type = stripBI p.entity
        · rw [show mergeGo (some c) (p :: ps) =
              mergeGo (some ⟨c.type, c.text ++ normalizeWord p.word⟩) ps from by
            simp [mergeGo, hw, hty]] at hsp
          refine ih _ (fun c2 hc2 => ?_) sp hsp
          cases hc2
          exact append_ne_empty_right c.text (normalizeWord p.word) hw
        · rw [show mergeGo (some c) (p :: ps) =
              c :: mergeGo (some ⟨stripBI p.entity, normalizeWord p.word⟩) ps from by
            simp [mergeGo, hw, hty]] at hsp
          rcases List.mem_cons.mp hsp with rfl | hsp2
          · exact hcur sp rfl
          · refine ih _ (fun c2 hc2 => ?_) sp hsp2
            cases hc2
            exact hw

/-- The instrumented merge projects onto the plain merge. -/
lemma mergeGoIdx_snd : ∀ (ps : List Pred) (i : Nat) (cur : Option (Nat × Span)),
    (mergeGoIdx cur i ps).map Prod.snd = mergeGo (cur.map Prod.snd) ps := by
  intro ps
  induction ps with
  | nil =>
    intro i cur
    cases cur with
    | none => rfl
    | some jc => rfl
  | cons p ps ih =>
    intro i cur
    by_cases hw : normalizeWord p.word = ""
    · simp [mergeGoIdx, mergeGo, hw, ih]
    · cases cur with
      | none => simp [mergeGoIdx, mergeGo, hw, ih]
      | some jc =>
        by_cases hty : jc.2.type = stripBI p.entity
        · simp [mergeGoIdx, mergeGo, hw, hty, ih]
        · simp [mergeGoIdx, mergeGo, hw, hty, ih]

/-- Lower bound carried by the sortedness invariant: the opener index of
the accumulator, or the current position when none is open. -/
def lbOf : Option (Nat × Span) → Nat → Nat
  | some jc, _ => jc.1
  | none, i => i

/-- The opener indices of the instrumented merge are strictly increasing
and bounded below by the accumulator opener (or current position). -/
lemma mergeGoIdx_sorted : ∀ (ps : List Pred) (i : Nat) (cur : Option (Nat × Span)),
    (∀ jc, cur = some jc → jc.1 < i) →
    List.Pairwise (fun a b : Nat × Span => a.1 < b.1) (mergeGoIdx cur i ps) ∧
    (∀ e ∈ mergeGoIdx cur i ps, lbOf cur i ≤ e.1) := by
  intro ps
  induction ps with
  | nil =>
    intro i cur hcur
    cases cur with
    | none => simp [mergeGoIdx]
    | some jc => simp [mergeGoIdx, lbOf]
  | cons p ps ih =>
    intro i cur hcur
    by_cases hw : normalizeWord p.word = ""
    · rw [show mergeGoIdx cur i (p :: ps) = mergeGoIdx cur (i + 1) ps from by
        simp [mergeGoIdx, hw]]
      have hcur2 : ∀ jc, cur = some jc → jc.1 < i + 1 :=
        fun jc hjc => Nat.lt_succ_of_lt (hcur jc hjc)
      obtain ⟨hpw, hbd⟩ := ih (i + 1) cur hcur2
      refine ⟨hpw, fun e he => ?_⟩
      have hb := hbd e he
      cases cur with
      | none => exact le_trans (Nat.le_succ i) hb
      | some jc => exact hb
    · cases cur with
      | none =>
        rw [show mergeGoIdx none i (p :: ps) =
            mergeGoIdx (some (i, ⟨stripBI p.entity, normalizeWord p.word⟩)) (i + 1) ps from by
          simp [mergeGoIdx, hw]]
        have hcur2 : ∀ jc, (some (i, (⟨stripBI p.entity, normalizeWord p.word⟩ : Span))) =
            some jc → jc.1 < i + 1 := by
          intro jc hjc
          cases hjc
          exact Nat.lt_succ_self i
        obtain ⟨hpw, hbd⟩ := ih (i + 1) _ hcur2
        exact ⟨hpw, hbd⟩
      | some jc =>
        by_cases hty : jc.2.type = stripBI p.entity
        · rw [show mergeGoIdx (some jc) i (p :: ps) =
              mergeGoIdx (some (jc.1, ⟨jc.2.type, jc.2.text ++ normalizeWord p.word⟩))
                (i + 1) ps from by
            simp [mergeGoIdx, hw, hty]]
          have hcur2 : ∀ c2, (some (jc.1,
              (⟨jc.2.type, jc.2.text ++ normalizeWord p.word⟩ : Span))) = some c2 →
              c2.1 < i + 1 := by
            intro c2 hc2
            cases hc2
            exact Nat.lt_succ_of_lt (hcur jc rfl)
          obtain ⟨hpw, hbd⟩ := ih (i + 1) _ hcur2
          exact ⟨hpw, hbd⟩
        · rw [show mergeGoIdx (some jc) i (p :: ps) =
              jc :: mergeGoIdx (some (i, ⟨stripBI p.entity, normalizeWord p.word⟩))
                (i + 1) ps from by
            simp [mergeGoIdx, hw, hty]]
          have hcur2 : ∀ c2, (some (i,
              (⟨stripBI p.entity, normalizeWord p.word⟩ : Span))) = some c2 →
              c2.1 < i + 1 := by
            intro c2 hc2
            cases hc2
            exact Nat.lt_succ_self i
          obtain ⟨hpw, hbd⟩ := ih (i + 1) _ hcur2
          have hji : jc.1 < i := hcur jc rfl
          constructor
          · rw [List.pairwise_cons]
            refine ⟨fun e he => ?_, hpw⟩
            have hbe := hbd e he
            have : (i : Nat) ≤ e.1 := hbe
            omega
          · intro e he
            rcases List.mem_cons.mp he with rfl | he2
            · exact Nat.le_refl _
            · have hbe := hbd e he2
              have hie : (i : Nat) ≤ e.1 := hbe
              show jc.1 ≤ e.1
              omega

/-- Claim C10.  Merger output well-formedness: the null and empty
prediction streams merge to the empty span list, every emitted span has
nonempty text, and the spans appear in the order of the tokens that
opened them (the recorded opener indices are strictly increasing, and
dropping them recovers the merger output). -/
theorem C10_wellformed :
    aggressiveMergeTokensOpt none = [] ∧
    aggressiveMergeTokens [] = [] ∧
    (∀ (preds : List Pred) (sp : Span), sp ∈ aggressiveMergeTokens preds → sp.text ≠ "") ∧
    (∀ preds : List Pred,
      (mergeIdx preds).map Prod.snd = aggressiveMergeTokens preds ∧
      List.Pairwise (fun a b : Nat × Span => a.1 < b.1) (mergeIdx preds)) := by
  refine ⟨rfl, rfl, ?_, ?_⟩
  · intro preds sp hsp
    refine mergeGo_text_ne preds none (fun c hc => ?_) sp hsp
    cases hc
  · intro preds
    refine ⟨mergeGoIdx_snd preds 0 none, ?_⟩
    refine (mergeGoIdx_sorted preds 0 none (fun jc hjc => ?_)).1
    cases hjc

/-- Witness for C10: concrete instantiations of the nonempty-text and
order-projection conjuncts. -/
theorem C10_witness :
    ((⟨"PER", "Ann"⟩ : Span).text ≠ "") ∧
    (mergeIdx [⟨"B-PER", "Ann"⟩, ⟨"B-LOC", "NYC"⟩]).map Prod.snd =
      aggressiveMergeTokens [⟨"B-PER", "Ann"⟩, ⟨"B-LOC", "NYC"⟩] :=
  ⟨C10_wellformed.2.2.1 [⟨"B-PER", "Ann"⟩] ⟨"PER", "Ann"⟩ (by decide),
   (C10_wellformed.2.2.2 [⟨"B-PER", "Ann"⟩, ⟨"B-LOC", "NYC"⟩]).1⟩

end A5
